import Mathlib

/-!
# An expiring in-memory cache (`cache/cache.go`)

A shallow embedding of the cache engine: the `Item` record, the `Cache` store
with its `map[string]Item`, and the operations `set`, `Set`, `Add`, `Get`,
`delete`, `Delete`, `DeleteExpired` and `NewCache`.

Modelling conventions.

* `int64` and `time.Duration` values are integers; the one place where the
  source can leave the `int64` range, the stamp `time.Now().Add(d).UnixNano()`,
  is reduced with `wrapInt64`.
* `time.Now().UnixNano()` is an explicit argument `now` of every operation that
  reads the clock; a reading of the clock is not before the epoch, so theorems
  that depend on the sign of a stamp take the reading of `Set` to be `>= 0`.
* `interface{}` is the type `Value`: the untyped `nil`, a caller value, or a
  boxed `Item` record.
* `map[string]Item` is an association list; Go keeps the keys of a map distinct,
  which is the invariant `Cache.WF`.
* The read/write lock only serialises the operations, so each operation is a
  function from the state before it to the state after it.
-/

namespace cache

/-! ## Machine integers -/

/-- Smallest `int64`. -/
def minInt64 : Int := -(2 ^ 63)

/-- Largest `int64`. -/
def maxInt64 : Int := 2 ^ 63 - 1

/-- Reduction of an integer to the `int64` that Go's wrapping arithmetic yields. -/
def wrapInt64 (x : Int) : Int := (x + 2 ^ 63) % 2 ^ 64 - 2 ^ 63

/-- Membership in the `int64` range. -/
def inInt64 (x : Int) : Prop := minInt64 ≤ x ∧ x ≤ maxInt64

instance (x : Int) : Decidable (inInt64 x) := by
  unfold inInt64; exact inferInstance

/-! ## Constants -/

/-- The constant `NoExpiration time.Duration = -1`. -/
def NoExpiration : Int := -1

/-- The constant `DefaultExpiration time.Duration = 0`. -/
def DefaultExpiration : Int := 0

/-! ## Values and items -/

/-- Dynamic values (`interface{}`): `nil`, a value supplied by the caller, or a
boxed `Item{Object, Expiration}` record. -/
inductive Value (α : Type) where
  | nil : Value α
  | val (a : α) : Value α
  | item (Object : Value α) (Expiration : Int) : Value α
  deriving DecidableEq

/-- The struct `Item`. -/
structure Item (α : Type) where
  Object : Value α
  Expiration : Int
  deriving DecidableEq

/-- Conversion of an `Item` to `interface{}`, as in `return item, true`. -/
def Item.box {α : Type} (item : Item α) : Value α :=
  Value.item item.Object item.Expiration

/-- The method `Item.Expired`, with the clock reading as argument. -/
def Item.Expired {α : Type} (item : Item α) (now : Int) : Bool :=
  if item.Expiration = 0 then false
  else decide (now > item.Expiration)

/-! ## The map -/

/-- The type `map[string]Item`. -/
abbrev Items (α : Type) := List (String × Item α)

/-- Map index `m[k]` in its two-result form: the item, if the key is present. -/
def mapLookup {α : Type} (k : String) : Items α → Option (Item α)
  | [] => none
  | kv :: m => if kv.1 = k then some kv.2 else mapLookup k m

/-- The builtin `delete(m, k)`. -/
def mapDelete {α : Type} (k : String) (m : Items α) : Items α :=
  m.filter (fun kv => decide (kv.1 ≠ k))

/-- Map assignment `m[k] = item`. -/
def mapAssign {α : Type} (k : String) (item : Item α) (m : Items α) : Items α :=
  (k, item) :: mapDelete k m

/-- Number of entries stored under a key. -/
def mapCount {α : Type} (k : String) (m : Items α) : Nat :=
  (m.filter (fun kv => decide (kv.1 = k))).length

/-! ## The store -/

/-- The struct `Cache` (the lock and the stop channel carry no data). -/
structure Cache (α : Type) where
  defaultExpiration : Int
  items : Items α
  gcInterval : Int
  deriving DecidableEq

/-- Keys of the map are pairwise distinct. -/
def Cache.WF {α : Type} (c : Cache α) : Prop :=
  (c.items.map Prod.fst).Nodup

instance {α : Type} (c : Cache α) : Decidable c.WF := by
  unfold Cache.WF; exact inferInstance

/-- The method `Cache.delete`. -/
def Cache.delete {α : Type} (c : Cache α) (k : String) : Cache α :=
  { c with items := mapDelete k c.items }

/-- The removal test of `DeleteExpired`: `v.Expiration > 0 && now > v.Expiration`. -/
def sweepTest {α : Type} (now : Int) (v : Item α) : Bool :=
  decide (v.Expiration > 0) && decide (now > v.Expiration)

/-- The loop of `DeleteExpired`: each visited entry that passes the removal test
is deleted from the store by key. -/
def deleteExpiredLoop {α : Type} (now : Int) : Items α → Cache α → Cache α
  | [], c => c
  | kv :: rest, c =>
    if sweepTest now kv.2 then deleteExpiredLoop now rest (c.delete kv.1)
    else deleteExpiredLoop now rest c

/-- The method `Cache.DeleteExpired`: the clock is read once, then the loop runs
over the entries of the map. -/
def Cache.DeleteExpired {α : Type} (c : Cache α) (now : Int) : Cache α :=
  deleteExpiredLoop now c.items c

/-- The method `Cache.Delete`. -/
def Cache.Delete {α : Type} (c : Cache α) (k : String) : Cache α :=
  c.delete k

/-- The duration that `set` works with after its first `if`. -/
def effectiveTTL {α : Type} (c : Cache α) (d : Int) : Int :=
  if d = DefaultExpiration then c.defaultExpiration else d

/-- The stamp `e` that `set` stores: `time.Now().Add(d).UnixNano()` for a
positive duration, the zero value otherwise. -/
def expirationStamp (d now : Int) : Int :=
  if d > 0 then wrapInt64 (now + d) else 0

/-- The method `Cache.set`. -/
def Cache.set {α : Type} (c : Cache α) (k : String) (v : Value α) (d now : Int) : Cache α :=
  let d := effectiveTTL c d
  let e := expirationStamp d now
  { c with items := mapAssign k { Object := v, Expiration := e } c.items }

/-- The method `Cache.Set`. -/
def Cache.Set {α : Type} (c : Cache α) (k : String) (v : Value α) (d now : Int) : Cache α :=
  c.set k v d now

/-- The error value built by `fmt.Errorf("Item %s already exists.", k)`. -/
def AlreadyExists (k : String) : String :=
  "Item " ++ k ++ " already exists."

/-- The method `Cache.Add`: the state afterwards and the returned error. -/
def Cache.Add {α : Type} (c : Cache α) (k : String) (v : Value α) (d now : Int) :
    Cache α × Option String :=
  match mapLookup k c.items with
  | some _ => (c, some (AlreadyExists k))
  | none => (c.set k v d now, none)

/-- The method `Cache.Get`: the returned pair. -/
def Cache.Get {α : Type} (c : Cache α) (k : String) (now : Int) : Value α × Bool :=
  match mapLookup k c.items with
  | none => (Value.nil, false)
  | some item => if item.Expired now then (item.box, false) else (item.box, true)

/-- The function `NewCache`. -/
def NewCache {α : Type} (defaultExpiration gcInterval : Int) : Cache α :=
  { defaultExpiration := defaultExpiration, gcInterval := gcInterval, items := [] }

/-! ## Sequences of operations -/

/-- One call on the store. -/
inductive Op (α : Type) where
  | Set (k : String) (v : Value α) (d : Int) : Op α
  | Add (k : String) (v : Value α) (d : Int) : Op α
  | Get (k : String) : Op α
  | Delete (k : String) : Op α
  | DeleteExpired : Op α
  deriving DecidableEq

/-- The call is a `Set`, `Add` or `Delete` on the key `k`. -/
def Op.writes {α : Type} : Op α → String → Bool
  | Op.Set k' _ _, k => decide (k' = k)
  | Op.Add k' _ _, k => decide (k' = k)
  | Op.Delete k', k => decide (k' = k)
  | Op.Get _, _ => false
  | Op.DeleteExpired, _ => false

/-- State after one call performed at the clock reading `now`. -/
def Cache.step {α : Type} (c : Cache α) (op : Op α) (now : Int) : Cache α :=
  match op with
  | Op.Set k v d => c.Set k v d now
  | Op.Add k v d => (c.Add k v d now).1
  | Op.Get _ => c
  | Op.Delete k => c.Delete k
  | Op.DeleteExpired => c.DeleteExpired now

/-- State after a sequence of calls, each with its clock reading. -/
def Cache.run {α : Type} (c : Cache α) : List (Op α × Int) → Cache α
  | [] => c
  | (op, now) :: rest => (c.step op now).run rest

/-! ## The sweeper goroutine -/

/-- A value of type `chan bool`: the zero value `nil`, or a channel returned by `make`. -/
inductive Chan where
  | nil : Chan
  | made : Chan
  deriving DecidableEq

/-- Position of the goroutine `gcLoop`: inside its `for`/`select` loop, or returned. -/
inductive GcState where
  | Running : GcState
  | Stopped : GcState
  deriving DecidableEq

/-- What can happen to a store with its sweeper: the ticker fires (`<-ticker.C`, with the
clock reading that `DeleteExpired` then takes), some goroutine sends a value on the channel
`stopGc`, or a caller performs a call on the store. -/
inductive GcEvent (α : Type) where
  | tick (now : Int) : GcEvent α
  | stop : GcEvent α
  | call (op : Op α) (now : Int) : GcEvent α

/-- The store with the field `stopGc`, the position of its goroutine `gcLoop` and the number of
times that goroutine has called `DeleteExpired`. -/
structure Sweeper (α : Type) where
  c : Cache α
  stopGc : Chan
  state : GcState
  sweeps : Nat
  deriving DecidableEq

/-- One event. In `gcLoop` the case `<-ticker.C` calls `DeleteExpired` and loops; the case
`<-c.stopGc` returns, and it can be taken only on a channel that is not `nil`, since a send on a
`nil` channel blocks for ever and is never received. -/
def gcLoopStep {α : Type} (s : Sweeper α) : GcEvent α → Sweeper α
  | GcEvent.tick now =>
    match s.state with
    | GcState.Running => { s with c := s.c.DeleteExpired now, sweeps := s.sweeps + 1 }
    | GcState.Stopped => s
  | GcEvent.stop =>
    match s.state, s.stopGc with
    | GcState.Running, Chan.made => { s with state := GcState.Stopped }
    | _, _ => s
  | GcEvent.call op now => { s with c := s.c.step op now }

/-- The method `gcLoop` along a sequence of events. -/
def gcLoop {α : Type} (s : Sweeper α) : List (GcEvent α) → Sweeper α
  | [] => s
  | e :: rest => gcLoop (gcLoopStep s e) rest

/-- The function `NewCache` with its `go c.gcLoop()`: the struct literal does not set `stopGc`,
which is therefore `nil`, and the goroutine starts in its loop. -/
def NewCacheGc {α : Type} (defaultExpiration gcInterval : Int) : Sweeper α :=
  { c := NewCache defaultExpiration gcInterval, stopGc := Chan.nil,
    state := GcState.Running, sweeps := 0 }

/-- Number of ticks in a sequence of events. -/
def countTicks {α : Type} : List (GcEvent α) → Nat
  | [] => 0
  | GcEvent.tick _ :: rest => countTicks rest + 1
  | _ :: rest => countTicks rest

/-! ## Calls within the range of the clock -/

/-- The clock reading of the call is positive and, for a `Set` or an `Add`, the sum of the clock
reading and the duration that `set` applies (the default `de` for the argument 0) is at most the
largest `int64`. -/
def Op.inRange {α : Type} (de : Int) (op : Op α) (now : Int) : Bool :=
  decide (0 < now) &&
    match op with
    | Op.Set _ _ d => decide (now + (if d = 0 then de else d) ≤ maxInt64)
    | Op.Add _ _ d => decide (now + (if d = 0 then de else d) ≤ maxInt64)
    | _ => true

/-! ## The states of `main.go` -/

/-- The store that `main` builds: `NewCache(0.5h, 1s)`. -/
def mainCache : Cache String := NewCache 1800000000000 1000000000

/-- A clock reading (14 November 2023, in nanoseconds since the epoch). -/
def clock0 : Int := 1700000000000000000

/-- The store of `main` after `c.Set("k1", item1, 5s)` at `clock0`. -/
def mainCache1 : Cache String :=
  mainCache.Set "k1" (Value.val "qwertyuiop") 5000000000 clock0

/-- A store with one entry that never expires and one that expired long ago. -/
def mixedCache : Cache String :=
  { defaultExpiration := 1800000000000, gcInterval := 1000000000,
    items := [("keep", { Object := Value.val "a", Expiration := 0 }),
              ("old", { Object := Value.val "b", Expiration := 5 })] }

/-- The calls of a sweeper and a reader up to two seconds after `clock0`: a sweep after one
second and a `Get("k1")` after two. -/
def quietCalls : List (Op String × Int) :=
  [(Op.DeleteExpired, clock0 + 1000000000), (Op.Get "k1", clock0 + 2000000000)]

/-- Calls on other keys and sweeps far in the future. -/
def busyCalls : List (Op String × Int) :=
  [(Op.DeleteExpired, clock0 + 1000000000), (Op.Set "k1" (Value.val "y") 1, clock0),
   (Op.Delete "k3", clock0), (Op.Add "k4" Value.nil 0, clock0), (Op.DeleteExpired, maxInt64)]

/-- The calls of `main.go` with their clock readings, and the sweep of the third second. -/
def mainCalls : List (Op String × Int) :=
  [(Op.Set "k1" (Value.val "qwertyuiop") 5000000000, clock0),
   (Op.Get "k1", clock0 + 2000000000),
   (Op.Add "k1" (Value.val "dummy") 0, clock0 + 2000000000),
   (Op.Set "k1" (Value.val "dummy dummy") 1000000000, clock0 + 2000000000),
   (Op.Get "k1", clock0 + 2000000000),
   (Op.Set "k2" (Value.val "x") NoExpiration, clock0 + 2000000000),
   (Op.DeleteExpired, clock0 + 4000000000),
   (Op.Get "k1", clock0 + 5000000000)]

/-- A store whose entry `"old"` expired long ago and has not been swept. -/
def staleCache : Cache String :=
  { defaultExpiration := 1800000000000, gcInterval := 1000000000,
    items := [("old", { Object := Value.val "b", Expiration := 5 })] }

/-- A store with a default ttl of 8 * 10^18 ns. -/
def longCache : Cache String := NewCache 8000000000000000000 1000000000

/-! ## Arithmetic of the stamp -/

theorem wrapInt64_of_inInt64 (x : Int) (h : inInt64 x) : wrapInt64 x = x := by
  unfold inInt64 minInt64 maxInt64 at h
  unfold wrapInt64
  omega

theorem wrapInt64_of_gt (x : Int) (h1 : maxInt64 < x) (h2 : x ≤ 2 * maxInt64) :
    wrapInt64 x = x - 2 ^ 64 := by
  unfold maxInt64 at h1 h2
  unfold wrapInt64
  omega

theorem expirationStamp_eq (d now : Int) (hd : inInt64 d) (hnow : inInt64 now) :
    expirationStamp d now =
      if 0 < d then (if now + d ≤ maxInt64 then now + d else now + d - 2 ^ 64) else 0 := by
  unfold expirationStamp
  by_cases hpos : 0 < d
  · have hpos' : d > 0 := hpos
    rw [if_pos hpos', if_pos hpos]
    by_cases hfit : now + d ≤ maxInt64
    · rw [if_pos hfit]
      apply wrapInt64_of_inInt64
      unfold inInt64 minInt64 maxInt64 at *
      omega
    · rw [if_neg hfit]
      apply wrapInt64_of_gt
      · omega
      · unfold inInt64 minInt64 maxInt64 at *
        omega
  · have hpos' : ¬ d > 0 := hpos
    rw [if_neg hpos', if_neg hpos]

/-! ## The map operations -/

variable {α : Type}

theorem mapLookup_cons_eq {k : String} {kv : String × Item α} (h : kv.1 = k) (m : Items α) :
    mapLookup k (kv :: m) = some kv.2 := by
  show (if kv.1 = k then some kv.2 else mapLookup k m) = some kv.2
  rw [if_pos h]

theorem mapLookup_cons_ne {k : String} {kv : String × Item α} (h : kv.1 ≠ k) (m : Items α) :
    mapLookup k (kv :: m) = mapLookup k m := by
  show (if kv.1 = k then some kv.2 else mapLookup k m) = mapLookup k m
  rw [if_neg h]

theorem mapDelete_cons_eq {k : String} {kv : String × Item α} (h : kv.1 = k) (m : Items α) :
    mapDelete k (kv :: m) = mapDelete k m := by
  unfold mapDelete
  rw [List.filter_cons_of_neg]
  simpa using h

theorem mapDelete_cons_ne {k : String} {kv : String × Item α} (h : kv.1 ≠ k) (m : Items α) :
    mapDelete k (kv :: m) = kv :: mapDelete k m := by
  unfold mapDelete
  rw [List.filter_cons_of_pos]
  simpa using h

theorem mapLookup_mapDelete_self (k : String) (m : Items α) :
    mapLookup k (mapDelete k m) = none := by
  induction m with
  | nil => rfl
  | cons kv m ih =>
    by_cases h : kv.1 = k
    · rw [mapDelete_cons_eq h]
      exact ih
    · rw [mapDelete_cons_ne h, mapLookup_cons_ne h]
      exact ih

theorem mapLookup_mapDelete_ne {k k' : String} (h : k' ≠ k) (m : Items α) :
    mapLookup k' (mapDelete k m) = mapLookup k' m := by
  induction m with
  | nil => rfl
  | cons kv m ih =>
    by_cases hk : kv.1 = k
    · have hk' : kv.1 ≠ k' := fun e => h (e.symm.trans hk)
      rw [mapDelete_cons_eq hk, mapLookup_cons_ne hk']
      exact ih
    · rw [mapDelete_cons_ne hk]
      by_cases hk' : kv.1 = k'
      · rw [mapLookup_cons_eq hk', mapLookup_cons_eq hk']
      · rw [mapLookup_cons_ne hk', mapLookup_cons_ne hk']
        exact ih

theorem mapLookup_mapAssign_self (k : String) (item : Item α) (m : Items α) :
    mapLookup k (mapAssign k item m) = some item := by
  simp [mapAssign, mapLookup]

theorem mapLookup_mapAssign_ne {k k' : String} (h : k' ≠ k) (item : Item α) (m : Items α) :
    mapLookup k' (mapAssign k item m) = mapLookup k' m := by
  have h' : k ≠ k' := fun e => h e.symm
  simp [mapAssign, mapLookup, h', mapLookup_mapDelete_ne h]

theorem mapLookup_eq_none_iff (k : String) (m : Items α) :
    mapLookup k m = none ↔ ∀ kv ∈ m, kv.1 ≠ k := by
  induction m with
  | nil => simp [mapLookup]
  | cons kv m ih =>
    by_cases h : kv.1 = k
    · simp [mapLookup, h]
    · simp [mapLookup, h, ih]

theorem mapDelete_of_absent {k : String} {m : Items α} (h : mapLookup k m = none) :
    mapDelete k m = m := by
  rw [mapLookup_eq_none_iff] at h
  unfold mapDelete
  rw [List.filter_eq_self]
  intro kv hkv
  simpa using h kv hkv

theorem mapDelete_idem (k : String) (m : Items α) :
    mapDelete k (mapDelete k m) = mapDelete k m :=
  mapDelete_of_absent (mapLookup_mapDelete_self k m)

theorem mapDelete_mapAssign (k : String) (item : Item α) (m : Items α) :
    mapDelete k (mapAssign k item m) = mapDelete k m := by
  simp [mapAssign, mapDelete, List.filter_cons, List.filter_filter]

theorem mapAssign_mapAssign (k : String) (i1 i2 : Item α) (m : Items α) :
    mapAssign k i2 (mapAssign k i1 m) = mapAssign k i2 m := by
  unfold mapAssign
  rw [show ((k, i1) :: mapDelete k m) = mapAssign k i1 m from rfl, mapDelete_mapAssign]

theorem mapCount_eq_zero_iff (k : String) (m : Items α) :
    mapCount k m = 0 ↔ mapLookup k m = none := by
  rw [mapLookup_eq_none_iff]
  unfold mapCount
  rw [List.length_eq_zero, List.filter_eq_nil_iff]
  simp

theorem mem_of_mapLookup_eq_some {k : String} {item : Item α} {m : Items α}
    (h : mapLookup k m = some item) : (k, item) ∈ m := by
  induction m with
  | nil => simp [mapLookup] at h
  | cons kv m ih =>
    by_cases hk : kv.1 = k
    · simp [mapLookup, hk] at h
      have : kv = (k, item) := Prod.ext hk h
      simp [this]
    · simp [mapLookup, hk] at h
      exact List.mem_cons_of_mem _ (ih h)

theorem mapLookup_eq_some_of_mem {k : String} {item : Item α} {m : Items α}
    (hm : (m.map Prod.fst).Nodup) (h : (k, item) ∈ m) : mapLookup k m = some item := by
  induction m with
  | nil => simp at h
  | cons kv m ih =>
    rw [List.map_cons, List.nodup_cons] at hm
    rcases List.mem_cons.1 h with h | h
    · subst h
      simp [mapLookup]
    · have hk : kv.1 ≠ k := by
        intro e
        apply hm.1
        rw [e]
        exact List.mem_map_of_mem Prod.fst h
      simpa [mapLookup, hk] using ih hm.2 h

theorem nodup_mapDelete (k : String) {m : Items α} (hm : (m.map Prod.fst).Nodup) :
    ((mapDelete k m).map Prod.fst).Nodup := by
  unfold mapDelete
  exact (List.Nodup.sublist ((List.filter_sublist m).map Prod.fst) hm)

theorem nodup_mapAssign (k : String) (item : Item α) {m : Items α}
    (hm : (m.map Prod.fst).Nodup) : ((mapAssign k item m).map Prod.fst).Nodup := by
  unfold mapAssign
  rw [List.map_cons, List.nodup_cons]
  refine ⟨?_, nodup_mapDelete k hm⟩
  intro hmem
  rcases List.mem_map.1 hmem with ⟨kv, hkv, hk⟩
  have := (mapLookup_eq_none_iff k (mapDelete k m)).1 (mapLookup_mapDelete_self k m) kv hkv
  exact this hk

/-! ## The sweep -/

theorem deleteExpiredLoop_defaultExpiration (now : Int) (todo : Items α) (c : Cache α) :
    (deleteExpiredLoop now todo c).defaultExpiration = c.defaultExpiration := by
  induction todo generalizing c with
  | nil => rfl
  | cons kv rest ih =>
    unfold deleteExpiredLoop
    split
    · rw [ih]; rfl
    · rw [ih]

theorem deleteExpiredLoop_gcInterval (now : Int) (todo : Items α) (c : Cache α) :
    (deleteExpiredLoop now todo c).gcInterval = c.gcInterval := by
  induction todo generalizing c with
  | nil => rfl
  | cons kv rest ih =>
    unfold deleteExpiredLoop
    split
    · rw [ih]; rfl
    · rw [ih]

/-- The loop removes exactly the entries whose key it visits with a passing test. -/
theorem deleteExpiredLoop_items (now : Int) (todo : Items α) (c : Cache α) :
    (deleteExpiredLoop now todo c).items =
      c.items.filter (fun kv => !(todo.any (fun e => decide (e.1 = kv.1) && sweepTest now e.2))) := by
  induction todo generalizing c with
  | nil => simp [deleteExpiredLoop]
  | cons e rest ih =>
    unfold deleteExpiredLoop
    by_cases ht : sweepTest now e.2 = true
    · rw [if_pos ht, ih]
      show List.filter _ (mapDelete e.1 c.items) = _
      unfold mapDelete
      rw [List.filter_filter]
      apply List.filter_congr
      intro kv _
      by_cases hk : kv.1 = e.1
      · simp [hk, ht]
      · have hk' : ¬ e.1 = kv.1 := fun h => hk h.symm
        simp [hk, hk']
    · rw [if_neg ht, ih]
      apply List.filter_congr
      intro kv _
      simp [ht]

theorem any_sweep_eq_of_nodup (now : Int) {m todo : Items α} (hm : (m.map Prod.fst).Nodup)
    (hmem : ∀ e, e ∈ todo ↔ e ∈ m) {kv : String × Item α} (hkv : kv ∈ m) :
    todo.any (fun e => decide (e.1 = kv.1) && sweepTest now e.2) = sweepTest now kv.2 := by
  by_cases ht : sweepTest now kv.2 = true
  · rw [ht, List.any_eq_true]
    exact ⟨kv, (hmem kv).2 hkv, by simp [ht]⟩
  · have hf : sweepTest now kv.2 = false := by simpa using ht
    rw [hf, List.any_eq_false]
    intro e he
    by_cases hk : e.1 = kv.1
    · have : e = kv := List.inj_on_of_nodup_map hm ((hmem e).1 he) hkv hk
      subst this
      simp [hf]
    · simp [hk]

/-- The result of the loop does not depend on the order in which the entries are visited. -/
theorem deleteExpiredLoop_items_of_perm (c : Cache α) (hc : c.WF) (now : Int) {todo : Items α}
    (hp : todo.Perm c.items) :
    (deleteExpiredLoop now todo c).items = c.items.filter (fun kv => !sweepTest now kv.2) := by
  rw [deleteExpiredLoop_items]
  apply List.filter_congr
  intro kv hkv
  rw [any_sweep_eq_of_nodup now hc (fun e => hp.mem_iff) hkv]

theorem DeleteExpired_items_eq_filter (c : Cache α) (hc : c.WF) (now : Int) :
    (c.DeleteExpired now).items = c.items.filter (fun kv => !sweepTest now kv.2) :=
  deleteExpiredLoop_items_of_perm c hc now (List.Perm.refl _)

theorem mapLookup_filter_of_nodup (p : String × Item α → Bool) (k : String) {m : Items α}
    (hm : (m.map Prod.fst).Nodup) :
    mapLookup k (m.filter p) =
      match mapLookup k m with
      | some item => if p (k, item) then some item else none
      | none => none := by
  induction m with
  | nil => rfl
  | cons kv m ih =>
    rw [List.map_cons, List.nodup_cons] at hm
    by_cases hk : kv.1 = k
    · rw [mapLookup_cons_eq hk]
      have hkv : (k, kv.2) = kv := Prod.ext hk.symm rfl
      simp only [hkv]
      by_cases hp : p kv = true
      · rw [List.filter_cons_of_pos hp, mapLookup_cons_eq hk, if_pos hp]
      · rw [List.filter_cons_of_neg hp, if_neg hp, mapLookup_eq_none_iff]
        intro e he hek
        apply hm.1
        rw [hk, ← hek]
        exact List.mem_map_of_mem Prod.fst (List.mem_of_mem_filter he)
    · rw [mapLookup_cons_ne hk]
      by_cases hp : p kv = true
      · rw [List.filter_cons_of_pos hp, mapLookup_cons_ne hk]
        exact ih hm.2
      · rw [List.filter_cons_of_neg hp]
        exact ih hm.2

theorem mapLookup_DeleteExpired (c : Cache α) (hc : c.WF) (now : Int) (k : String) :
    mapLookup k (c.DeleteExpired now).items =
      match mapLookup k c.items with
      | some item => if sweepTest now item then none else some item
      | none => none := by
  rw [DeleteExpired_items_eq_filter c hc, mapLookup_filter_of_nodup _ k hc]
  cases mapLookup k c.items with
  | none => rfl
  | some item => by_cases h : sweepTest now item = true <;> simp [h]

theorem sweepTest_iff (now : Int) (item : Item α) :
    sweepTest now item = true ↔ (item.Expiration > 0 ∧ now > item.Expiration) := by
  simp [sweepTest]

theorem Expired_iff (now : Int) (item : Item α) :
    item.Expired now = true ↔ (item.Expiration ≠ 0 ∧ now > item.Expiration) := by
  unfold Item.Expired
  by_cases h : item.Expiration = 0
  · simp [h]
  · simp [h]

/-! ## Well-formedness is preserved -/

theorem NewCache_WF (de gc : Int) : (NewCache de gc : Cache α).WF := by
  simp [NewCache, Cache.WF]

theorem Set_WF (c : Cache α) (hc : c.WF) (k : String) (v : Value α) (d now : Int) :
    (c.Set k v d now).WF :=
  nodup_mapAssign k _ hc

theorem Delete_WF (c : Cache α) (hc : c.WF) (k : String) : (c.Delete k).WF :=
  nodup_mapDelete k hc

theorem Add_WF (c : Cache α) (hc : c.WF) (k : String) (v : Value α) (d now : Int) :
    (c.Add k v d now).1.WF := by
  unfold Cache.Add
  cases mapLookup k c.items with
  | none => exact Set_WF c hc k v d now
  | some _ => exact hc

theorem DeleteExpired_WF (c : Cache α) (hc : c.WF) (now : Int) : (c.DeleteExpired now).WF := by
  unfold Cache.WF
  rw [DeleteExpired_items_eq_filter c hc]
  exact List.Nodup.sublist ((List.filter_sublist c.items).map Prod.fst) hc

theorem step_WF (c : Cache α) (hc : c.WF) (op : Op α) (now : Int) : (c.step op now).WF := by
  cases op with
  | Set k v d => exact Set_WF c hc k v d now
  | Add k v d => exact Add_WF c hc k v d now
  | Get k => exact hc
  | Delete k => exact Delete_WF c hc k
  | DeleteExpired => exact DeleteExpired_WF c hc now

theorem run_WF (c : Cache α) (hc : c.WF) (ops : List (Op α × Int)) : (c.run ops).WF := by
  induction ops generalizing c with
  | nil => exact hc
  | cons o rest ih => exact ih (c.step o.1 o.2) (step_WF c hc o.1 o.2)

theorem Value_item_ne_self (v : Value α) (e : Int) : Value.item v e ≠ v := by
  intro h
  have hs := congrArg sizeOf h
  simp at hs
  omega

theorem Set_items (c : Cache α) (k : String) (v : Value α) (d now : Int) :
    (c.Set k v d now).items =
      mapAssign k { Object := v, Expiration := expirationStamp (effectiveTTL c d) now } c.items :=
  rfl

theorem mapLookup_Set_self (c : Cache α) (k : String) (v : Value α) (d now : Int) :
    mapLookup k (c.Set k v d now).items =
      some { Object := v, Expiration := expirationStamp (effectiveTTL c d) now } := by
  rw [Set_items, mapLookup_mapAssign_self]

theorem effectiveTTL_inInt64 (c : Cache α) (d : Int) (hd : inInt64 d)
    (hdef : inInt64 c.defaultExpiration) : inInt64 (effectiveTTL c d) := by
  unfold effectiveTTL
  split
  · exact hdef
  · exact hd

/-! ## Calls that do not write a key -/

theorem Add_eq_of_no_error (c : Cache α) (k : String) (v : Value α) (d now : Int)
    (h : (c.Add k v d now).2 = none) : (c.Add k v d now).1 = c.Set k v d now := by
  unfold Cache.Add at h ⊢
  cases hl : mapLookup k c.items with
  | none => rfl
  | some item => rw [hl] at h; simp at h

theorem mapLookup_Add_ne (c : Cache α) {k k' : String} (h : k ≠ k') (v : Value α) (d now : Int) :
    mapLookup k (c.Add k' v d now).1.items = mapLookup k c.items := by
  unfold Cache.Add
  cases mapLookup k' c.items with
  | none => exact mapLookup_mapAssign_ne h _ _
  | some item => rfl

/-- A call that does not write `k` leaves `k` absent. -/
theorem step_lookup_none (c : Cache α) (hc : c.WF) (k : String) (op : Op α) (now : Int)
    (hw : op.writes k = false) (h : mapLookup k c.items = none) :
    mapLookup k (c.step op now).items = none := by
  cases op with
  | Set k' v d =>
    have hne : k ≠ k' := fun e => by simp [Op.writes, e] at hw
    exact (mapLookup_mapAssign_ne hne _ _).trans h
  | Add k' v d =>
    have hne : k ≠ k' := fun e => by simp [Op.writes, e] at hw
    exact (mapLookup_Add_ne c hne v d now).trans h
  | Get k' => exact h
  | Delete k' =>
    have hne : k ≠ k' := fun e => by simp [Op.writes, e] at hw
    exact (mapLookup_mapDelete_ne hne _).trans h
  | DeleteExpired =>
    show mapLookup k (c.DeleteExpired now).items = none
    rw [mapLookup_DeleteExpired c hc now k, h]

/-- A call that does not write `k` keeps the entry of `k`, unless it is a sweep whose test the
entry passes. -/
theorem step_lookup_some (c : Cache α) (hc : c.WF) (k : String) (op : Op α) (now : Int)
    (hw : op.writes k = false) {item : Item α} (h : mapLookup k c.items = some item)
    (ht : sweepTest now item = false) :
    mapLookup k (c.step op now).items = some item := by
  cases op with
  | Set k' v d =>
    have hne : k ≠ k' := fun e => by simp [Op.writes, e] at hw
    exact (mapLookup_mapAssign_ne hne _ _).trans h
  | Add k' v d =>
    have hne : k ≠ k' := fun e => by simp [Op.writes, e] at hw
    exact (mapLookup_Add_ne c hne v d now).trans h
  | Get k' => exact h
  | Delete k' =>
    have hne : k ≠ k' := fun e => by simp [Op.writes, e] at hw
    exact (mapLookup_mapDelete_ne hne _).trans h
  | DeleteExpired =>
    show mapLookup k (c.DeleteExpired now).items = some item
    rw [mapLookup_DeleteExpired c hc now k, h]
    simp [ht]

/-- A call that does not write `k` keeps the entry of `k` or removes it. -/
theorem step_lookup_some_or_none (c : Cache α) (hc : c.WF) (k : String) (op : Op α) (now : Int)
    (hw : op.writes k = false) {item : Item α} (h : mapLookup k c.items = some item) :
    mapLookup k (c.step op now).items = some item ∨ mapLookup k (c.step op now).items = none := by
  by_cases ht : sweepTest now item = true
  · cases op with
    | DeleteExpired =>
      right
      show mapLookup k (c.DeleteExpired now).items = none
      rw [mapLookup_DeleteExpired c hc now k, h]
      simp [ht]
    | Set k' v d =>
      have hne : k ≠ k' := fun e => by simp [Op.writes, e] at hw
      exact Or.inl ((mapLookup_mapAssign_ne hne _ _).trans h)
    | Add k' v d =>
      have hne : k ≠ k' := fun e => by simp [Op.writes, e] at hw
      exact Or.inl ((mapLookup_Add_ne c hne v d now).trans h)
    | Get k' => exact Or.inl h
    | Delete k' =>
      have hne : k ≠ k' := fun e => by simp [Op.writes, e] at hw
      exact Or.inl ((mapLookup_mapDelete_ne hne _).trans h)
  · exact Or.inl (step_lookup_some c hc k op now hw h (by simpa using ht))

theorem run_lookup_none (c : Cache α) (hc : c.WF) (k : String) (ops : List (Op α × Int))
    (hw : ∀ o ∈ ops, o.1.writes k = false) (h : mapLookup k c.items = none) :
    mapLookup k (c.run ops).items = none := by
  induction ops generalizing c with
  | nil => exact h
  | cons o rest ih =>
    exact ih (c.step o.1 o.2) (step_WF c hc o.1 o.2)
      (fun o' ho' => hw o' (List.mem_cons_of_mem _ ho'))
      (step_lookup_none c hc k o.1 o.2 (hw o (List.mem_cons_self _ _)) h)

theorem run_lookup_some (c : Cache α) (hc : c.WF) (k : String) (ops : List (Op α × Int))
    (hw : ∀ o ∈ ops, o.1.writes k = false) {item : Item α} (h : mapLookup k c.items = some item)
    (ht : ∀ o ∈ ops, sweepTest o.2 item = false) :
    mapLookup k (c.run ops).items = some item := by
  induction ops generalizing c with
  | nil => exact h
  | cons o rest ih =>
    exact ih (c.step o.1 o.2) (step_WF c hc o.1 o.2)
      (fun o' ho' => hw o' (List.mem_cons_of_mem _ ho'))
      (step_lookup_some c hc k o.1 o.2 (hw o (List.mem_cons_self _ _)) h
        (ht o (List.mem_cons_self _ _)))
      (fun o' ho' => ht o' (List.mem_cons_of_mem _ ho'))

theorem run_lookup_some_or_none (c : Cache α) (hc : c.WF) (k : String)
    (ops : List (Op α × Int)) (hw : ∀ o ∈ ops, o.1.writes k = false) {item : Item α}
    (h : mapLookup k c.items = some item) :
    mapLookup k (c.run ops).items = some item ∨ mapLookup k (c.run ops).items = none := by
  induction ops generalizing c with
  | nil => exact Or.inl h
  | cons o rest ih =>
    have hw' : ∀ o' ∈ rest, o'.1.writes k = false :=
      fun o' ho' => hw o' (List.mem_cons_of_mem _ ho')
    rcases step_lookup_some_or_none c hc k o.1 o.2 (hw o (List.mem_cons_self _ _)) h with h1 | h1
    · exact ih (c.step o.1 o.2) (step_WF c hc o.1 o.2) hw' h1
    · exact Or.inr (run_lookup_none (c.step o.1 o.2) (step_WF c hc o.1 o.2) k rest hw' h1)

/-- A call that does not write `k` keeps the entry of `k`, unless it is a sweep whose test the
entry passes; the clock readings of the other calls do not matter. -/
theorem step_lookup_some_of_sweep (c : Cache α) (hc : c.WF) (k : String) (op : Op α) (now : Int)
    (hw : op.writes k = false) {item : Item α} (h : mapLookup k c.items = some item)
    (ht : op = Op.DeleteExpired → sweepTest now item = false) :
    mapLookup k (c.step op now).items = some item := by
  cases op with
  | Set k' v d =>
    have hne : k ≠ k' := fun e => by simp [Op.writes, e] at hw
    exact (mapLookup_mapAssign_ne hne _ _).trans h
  | Add k' v d =>
    have hne : k ≠ k' := fun e => by simp [Op.writes, e] at hw
    exact (mapLookup_Add_ne c hne v d now).trans h
  | Get k' => exact h
  | Delete k' =>
    have hne : k ≠ k' := fun e => by simp [Op.writes, e] at hw
    exact (mapLookup_mapDelete_ne hne _).trans h
  | DeleteExpired => exact step_lookup_some c hc k Op.DeleteExpired now hw h (ht rfl)

theorem run_lookup_some_of_sweeps (c : Cache α) (hc : c.WF) (k : String)
    (ops : List (Op α × Int)) (hw : ∀ o ∈ ops, o.1.writes k = false) {item : Item α}
    (h : mapLookup k c.items = some item)
    (ht : ∀ o ∈ ops, o.1 = Op.DeleteExpired → sweepTest o.2 item = false) :
    mapLookup k (c.run ops).items = some item := by
  induction ops generalizing c with
  | nil => exact h
  | cons o rest ih =>
    exact ih (c.step o.1 o.2) (step_WF c hc o.1 o.2)
      (fun o' ho' => hw o' (List.mem_cons_of_mem _ ho'))
      (step_lookup_some_of_sweep c hc k o.1 o.2 (hw o (List.mem_cons_self _ _)) h
        (ht o (List.mem_cons_self _ _)))
      (fun o' ho' => ht o' (List.mem_cons_of_mem _ ho'))

theorem Get_found_of_lookup (c : Cache α) (k : String) (now : Int) {item : Item α}
    (h : mapLookup k c.items = some item) : (c.Get k now).2 = !item.Expired now := by
  unfold Cache.Get
  rw [h]
  dsimp only
  cases item.Expired now <;> rfl

theorem Get_of_lookup_none (c : Cache α) (k : String) (now : Int)
    (h : mapLookup k c.items = none) : c.Get k now = (Value.nil, false) := by
  unfold Cache.Get
  rw [h]

/-- The stamp that `Set` stores for a positive ttl whose sum with the clock fits in `int64`. -/
theorem expirationStamp_of_fits (c : Cache α) (d now : Int) (hd : 0 < d)
    (hlo : minInt64 ≤ now + d) (hhi : now + d ≤ maxInt64) :
    expirationStamp (effectiveTTL c d) now = now + d := by
  have hne : ¬ d = DefaultExpiration := by
    unfold DefaultExpiration
    omega
  unfold effectiveTTL expirationStamp
  rw [if_neg hne, if_pos hd]
  exact wrapInt64_of_inInt64 _ ⟨hlo, hhi⟩

/-! ## Claims about `Set`, `Get`, `Add`, `Delete` and `DeleteExpired` -/

/-- C1, as stated, fails: with the clock at `clock0` and a ttl of 8 * 10^18 ns (a valid
`time.Duration`, about 253 years) the sum `now + d` exceeds the largest `int64`, and `Set`
stores the wrapped stamp `now + d - 2^64`, a negative number, not `now + d`. -/
theorem Set_stamp_counterexample :
    inInt64 clock0 ∧ inInt64 8000000000000000000 ∧
    mapLookup "k1" (mainCache.Set "k1" (Value.val "v") 8000000000000000000 clock0).items
      = some { Object := Value.val "v", Expiration := -8746744073709551616 } ∧
    mapLookup "k1" (mainCache.Set "k1" (Value.val "v") 8000000000000000000 clock0).items
      ≠ some { Object := Value.val "v", Expiration := clock0 + 8000000000000000000 } := by
  decide

/-- C1, amended: for `int64` arguments, `Set(k, v, ttl)` at clock reading `now` stores for `k`
the entry with `Object = v` and, for `d = defaultExpiration` when `ttl = 0` and `d = ttl`
otherwise, `Expiration = now + d` when `d > 0` and the sum fits in `int64`,
`Expiration = now + d - 2^64` when `d > 0` and the sum does not fit, and `Expiration = 0`
when `d <= 0`. A positive ttl ignores `defaultExpiration`, and `ttl = 0` gives the same state
as `ttl = defaultExpiration`. -/
theorem Set_stores_entry (c : Cache α) (k : String) (v : Value α) (ttl now : Int)
    (httl : inInt64 ttl) (hdef : inInt64 c.defaultExpiration) (hnow : inInt64 now) :
    mapLookup k (c.Set k v ttl now).items =
      some { Object := v,
             Expiration :=
               if 0 < (if ttl = 0 then c.defaultExpiration else ttl) then
                 (if now + (if ttl = 0 then c.defaultExpiration else ttl) ≤ maxInt64 then
                    now + (if ttl = 0 then c.defaultExpiration else ttl)
                  else now + (if ttl = 0 then c.defaultExpiration else ttl) - 2 ^ 64)
               else 0 } ∧
    (0 < ttl → ∀ de : Int,
      ({ c with defaultExpiration := de }.Set k v ttl now).items = (c.Set k v ttl now).items) ∧
    c.Set k v 0 now = c.Set k v c.defaultExpiration now := by
  refine ⟨?_, ?_, ?_⟩
  · rw [mapLookup_Set_self,
      expirationStamp_eq _ now (effectiveTTL_inInt64 c ttl httl hdef) hnow]
    rfl
  · intro hpos de
    have hne : ¬ ttl = DefaultExpiration := by
      unfold DefaultExpiration
      omega
    simp [Set_items, effectiveTTL, hne]
  · by_cases h0 : c.defaultExpiration = 0
    · rw [h0]
    · simp [Cache.Set, Cache.set, effectiveTTL, DefaultExpiration, h0]

/-- C1, the amended claim at the calls of `main.go`: `Set("k1", item1, 5s)` at `clock0`
stores the stamp `clock0 + 5s`. -/
theorem Set_stores_entry_witness :
    mapLookup "k1" (mainCache.Set "k1" (Value.val "qwertyuiop") 5000000000 clock0).items =
      some { Object := Value.val "qwertyuiop", Expiration := 1700000005000000000 } :=
  (Set_stores_entry mainCache "k1" (Value.val "qwertyuiop") 5000000000 clock0
    (by decide) (by decide) (by decide)).1

/-- C3: `Get(k)` at clock reading `now` returns `found = false` exactly when `k` is absent from
the map or the stored entry is expired at `now` (its `Expiration` is not 0 and
`now > Expiration`), and `found = true` in every other case; the state is arbitrary, so this
holds whether or not a sweep has already removed the expired entry. -/
theorem Get_found_false_iff (c : Cache α) (k : String) (now : Int) :
    ((c.Get k now).2 = false ↔
      (mapLookup k c.items = none ∨
        ∃ item, mapLookup k c.items = some item ∧ item.Expiration ≠ 0 ∧ now > item.Expiration)) ∧
    ((c.Get k now).2 = true ↔
      ∃ item, mapLookup k c.items = some item ∧ ¬ (item.Expiration ≠ 0 ∧ now > item.Expiration)) := by
  unfold Cache.Get
  cases hl : mapLookup k c.items with
  | none => simp
  | some item =>
    by_cases he : item.Expired now = true
    · have he' := (Expired_iff now item).1 he
      simp [he, he'.1, he'.2]
    · have he' : ¬ (item.Expiration ≠ 0 ∧ now > item.Expiration) :=
        fun h => he ((Expired_iff now item).2 h)
      simp only [he]
      constructor
      · constructor
        · intro h; simp at h
        · rintro (h | ⟨i, hi, h⟩)
          · simp at h
          · simp only [Option.some.injEq] at hi
            subst hi
            exact absurd h he'
      · constructor
        · intro _; exact ⟨item, rfl, he'⟩
        · intro _; rfl

/-- `Get` hands back the boxed `Item` record, which is never the value that was stored. -/
theorem Get_after_Set_fst (c : Cache α) (k : String) (v : Value α) (d t0 t : Int) :
    ((c.Set k v d t0).Get k t).1 = Value.item v (expirationStamp (effectiveTTL c d) t0) ∧
    ((c.Set k v d t0).Get k t).1 ≠ v := by
  have h : ((c.Set k v d t0).Get k t).1 =
      Value.item v (expirationStamp (effectiveTTL c d) t0) := by
    unfold Cache.Get
    rw [mapLookup_Set_self]
    dsimp only
    split <;> rfl
  exact ⟨h, by rw [h]; exact Value_item_ne_self v _⟩

/-- C4 at the calls of `main.go`: `Set("k1", "dummy dummy", 1s)` at `clock0` followed at once by
`Get("k1")` returns `found = true`, but the first component is the record
`Item{"dummy dummy", clock0 + 1s}`, not the string `"dummy dummy"`. -/
theorem Get_returns_item_record :
    (mainCache1.Set "k1" (Value.val "dummy dummy") 1000000000 clock0).Get "k1" clock0
      = (Value.item (Value.val "dummy dummy") 1700000001000000000, true) ∧
    (mainCache1.Set "k1" (Value.val "dummy dummy") 1000000000 clock0).Get "k1" clock0
      ≠ (Value.val "dummy dummy", true) := by
  decide

/-- C5: when `k` is present, `Add(k, v, ttl)` returns the already-exists error and the state is
unchanged; when `k` is absent, it returns no error and the state is the one `Set(k, v, ttl)`
produces at the same clock reading; an error is returned exactly when `k` is present. -/
theorem Add_spec (c : Cache α) (k : String) (v : Value α) (ttl now : Int) :
    (mapLookup k c.items ≠ none → c.Add k v ttl now = (c, some (AlreadyExists k))) ∧
    (mapLookup k c.items = none → c.Add k v ttl now = (c.Set k v ttl now, none)) ∧
    ((c.Add k v ttl now).2 ≠ none ↔ mapLookup k c.items ≠ none) := by
  unfold Cache.Add
  cases mapLookup k c.items with
  | none => simp [Cache.Set]
  | some item => simp

/-- C5 at the calls of `main.go`: with `"k1"` present, `Add("k1", "dummy", 0)` fails and changes
nothing; `Add("k2", ...)` on the same store succeeds and acts as `Set`. -/
theorem Add_spec_witness :
    mainCache1.Add "k1" (Value.val "dummy") 0 (clock0 + 2000000000)
      = (mainCache1, some "Item k1 already exists.") ∧
    mainCache1.Add "k2" (Value.val "dummy") 0 (clock0 + 2000000000)
      = (mainCache1.Set "k2" (Value.val "dummy") 0 (clock0 + 2000000000), none) :=
  ⟨(Add_spec mainCache1 "k1" (Value.val "dummy") 0 (clock0 + 2000000000)).1 (by decide),
   (Add_spec mainCache1 "k2" (Value.val "dummy") 0 (clock0 + 2000000000)).2.1 (by decide)⟩

/-- C6: `Set(k, v1, d1)` followed by `Set(k, v2, d2)` yields the same state, and so the same
entry under every key, as `Set(k, v2, d2)` alone; the entry then stored for `k` has value `v2`
and the stamp computed from `d2`, `defaultExpiration` and the clock reading of the second call
only. -/
theorem Set_overwrites (c : Cache α) (k : String) (v1 v2 : Value α) (d1 d2 now1 now2 : Int) :
    (c.Set k v1 d1 now1).Set k v2 d2 now2 = c.Set k v2 d2 now2 ∧
    (∀ k', mapLookup k' ((c.Set k v1 d1 now1).Set k v2 d2 now2).items
      = mapLookup k' (c.Set k v2 d2 now2).items) ∧
    mapLookup k ((c.Set k v1 d1 now1).Set k v2 d2 now2).items =
      some { Object := v2,
             Expiration :=
               if (if d2 = 0 then c.defaultExpiration else d2) > 0 then
                 wrapInt64 (now2 + (if d2 = 0 then c.defaultExpiration else d2))
               else 0 } := by
  have h : (c.Set k v1 d1 now1).Set k v2 d2 now2 = c.Set k v2 d2 now2 := by
    simp only [Cache.Set, Cache.set, effectiveTTL, mapAssign_mapAssign]
  refine ⟨h, fun k' => by rw [h], ?_⟩
  rw [h, mapLookup_Set_self]
  rfl

/-- C7: after `Delete(k)` the key is absent and `Get(k)` returns `(nil, false)` at every clock
reading; `Delete(k)` of an absent key leaves the state unchanged; and `Delete(k)` twice is
`Delete(k)` once. -/
theorem Delete_spec (c : Cache α) (k : String) :
    mapLookup k (c.Delete k).items = none ∧
    mapCount k (c.Delete k).items = 0 ∧
    (∀ now, (c.Delete k).Get k now = (Value.nil, false)) ∧
    (mapLookup k c.items = none → c.Delete k = c) ∧
    (c.Delete k).Delete k = c.Delete k := by
  have h : mapLookup k (c.Delete k).items = none := mapLookup_mapDelete_self k c.items
  refine ⟨h, (mapCount_eq_zero_iff k _).2 h, ?_, ?_, ?_⟩
  · intro now
    unfold Cache.Get
    rw [h]
  · intro habs
    show ({ c with items := mapDelete k c.items } : Cache α) = c
    rw [mapDelete_of_absent habs]
  · show ({ c with items := mapDelete k (mapDelete k c.items) } : Cache α)
      = { c with items := mapDelete k c.items }
    rw [mapDelete_idem]

/-- C7 on the store of `main.go`: deleting the absent key `"k2"` changes nothing. -/
theorem Delete_spec_witness : mainCache1.Delete "k2" = mainCache1 :=
  (Delete_spec mainCache1 "k2").2.2.2.1 (by decide)

/-- C8: on a store whose keys are distinct, the map after `DeleteExpired()` with clock reading
`now` consists of the entries of the map before it that do not satisfy
`Expiration > 0 and now > Expiration`, unchanged: an entry is stored under `k` afterwards
exactly when it was stored under `k` before and does not pass the test. The order in which
the loop visits the entries does not matter, and the two duration fields of the store are
unchanged. -/
theorem DeleteExpired_spec (c : Cache α) (hc : c.WF) (now : Int) :
    (c.DeleteExpired now).items
      = c.items.filter (fun kv => !(decide (kv.2.Expiration > 0) && decide (now > kv.2.Expiration))) ∧
    (∀ k item, mapLookup k (c.DeleteExpired now).items = some item ↔
      (mapLookup k c.items = some item ∧ ¬ (item.Expiration > 0 ∧ now > item.Expiration))) ∧
    (∀ todo : Items α, todo.Perm c.items →
      (deleteExpiredLoop now todo c).items = (c.DeleteExpired now).items) ∧
    (c.DeleteExpired now).defaultExpiration = c.defaultExpiration ∧
    (c.DeleteExpired now).gcInterval = c.gcInterval := by
  refine ⟨DeleteExpired_items_eq_filter c hc now, ?_, ?_,
    deleteExpiredLoop_defaultExpiration now c.items c, deleteExpiredLoop_gcInterval now c.items c⟩
  rotate_left
  · intro todo hp
    rw [deleteExpiredLoop_items_of_perm c hc now hp, DeleteExpired_items_eq_filter c hc now]
  intro k item
  rw [mapLookup_DeleteExpired c hc now k, ← sweepTest_iff]
  cases mapLookup k c.items with
  | none => simp
  | some i =>
    by_cases ht : sweepTest now i = true
    · simp only [ht, if_true]
      constructor
      · intro h; simp at h
      · rintro ⟨h1, h2⟩
        simp only [Option.some.injEq] at h1
        subst h1
        exact absurd ht h2
    · simp only [ht]
      constructor
      · intro h
        simp only [Bool.false_eq_true, if_false, Option.some.injEq] at h
        subst h
        exact ⟨rfl, ht⟩
      · rintro ⟨h1, _⟩
        simpa using h1

/-- C8 on a store with a never-expiring entry and an expired one: the sweep at `clock0` keeps
the first and removes the second. -/
theorem DeleteExpired_spec_witness :
    mixedCache.WF ∧
    (mixedCache.DeleteExpired clock0).items
      = [("keep", { Object := Value.val "a", Expiration := 0 })] :=
  ⟨by decide, (DeleteExpired_spec mixedCache (by decide) clock0).1.trans (by decide)⟩

/-- C2, as stated, fails: with a ttl of 8 * 10^18 ns at `clock0` the sum `t0 + d` exceeds the
largest `int64`, the stamp wraps to a negative number, and `Get` at `t = t0 < t0 + d` already
returns `found = false`. -/
theorem Get_ttl_counterexample :
    (0 : Int) < 8000000000000000000 ∧ inInt64 8000000000000000000 ∧
    0 ≤ clock0 ∧ inInt64 clock0 ∧ clock0 < clock0 + 8000000000000000000 ∧
    ((mainCache.Set "k1" (Value.val "v") 8000000000000000000 clock0).Get "k1" clock0).2
      = false := by
  decide

/-- C2, amended: let `d > 0`, let `t0 >= 0` be the clock reading of `Set(k, v, d)` with
`t0 + d <= 2^63 - 1`, and let the `Set` be followed by any calls none of which is a `Set`,
`Add` or `Delete` on `k`. Then `Get(k)` at `t` returns `found = true` for every `t <= t0 + d`
(the boundary included) when the sweeps among those calls were made at clock readings not after
`t0 + d`, and `found = false` for every `t > t0 + d`. -/
theorem Get_after_Set_ttl (c : Cache α) (hc : c.WF) (k : String) (v : Value α) (d t0 : Int)
    (ops : List (Op α × Int)) (t : Int)
    (hd : 0 < d) (ht0 : 0 ≤ t0) (hfit : t0 + d ≤ maxInt64)
    (hw : ∀ o ∈ ops, o.1.writes k = false) :
    ((∀ o ∈ ops, o.1 = Op.DeleteExpired → o.2 ≤ t0 + d) → t ≤ t0 + d →
      (((c.Set k v d t0).run ops).Get k t).2 = true) ∧
    (t > t0 + d → (((c.Set k v d t0).run ops).Get k t).2 = false) := by
  have hlo : minInt64 ≤ t0 + d := by
    unfold minInt64
    omega
  have hne : t0 + d ≠ 0 := by omega
  have hl : mapLookup k (c.Set k v d t0).items
      = some { Object := v, Expiration := t0 + d } := by
    rw [mapLookup_Set_self, expirationStamp_of_fits c d t0 hd hlo hfit]
  have hwf := Set_WF c hc k v d t0
  constructor
  · intro hclk ht
    have hsw : ∀ o ∈ ops, o.1 = Op.DeleteExpired →
        sweepTest o.2 ({ Object := v, Expiration := t0 + d } : Item α) = false := by
      intro o ho hsweep
      have := hclk o ho hsweep
      simp only [sweepTest, Bool.and_eq_false_iff, decide_eq_false_iff_not]
      right
      omega
    rw [Get_found_of_lookup _ k t (run_lookup_some_of_sweeps _ hwf k ops hw hl hsw)]
    have : ¬ t > t0 + d := by omega
    simp [Item.Expired, hne, this]
  · intro ht
    rcases run_lookup_some_or_none _ hwf k ops hw hl with h | h
    · rw [Get_found_of_lookup _ k t h]
      simp [Item.Expired, hne, ht]
    · rw [Get_of_lookup_none _ k t h]

/-- C2, amended, at the calls of `main.go`: `Set("k1", item1, 5s)` at `clock0`, a sweep and a
read later, `Get("k1")` two seconds after `clock0` finds the entry. -/
theorem Get_after_Set_ttl_witness :
    ((mainCache.Set "k1" (Value.val "qwertyuiop") 5000000000 clock0).run quietCalls).Get "k1"
      (clock0 + 2000000000) = (Value.item (Value.val "qwertyuiop") 1700000005000000000, true) :=
  Prod.ext (by decide)
    ((Get_after_Set_ttl mainCache (by decide) "k1" (Value.val "qwertyuiop") 5000000000 clock0
      quietCalls (clock0 + 2000000000) (by decide) (by decide) (by decide)
      (by decide)).1 (by decide) (by decide))

/-- C9: on a store whose keys are distinct, after `Set(k, v, NoExpiration)`, or after an
`Add(k, v, NoExpiration)` that returned no error, and after any further calls none of which is
a `Set`, `Add` or `Delete` on `k` (sweeps at any clock readings included), the entry of `k` is
still `v` with the stamp 0, `Get(k)` returns `found = true` at every clock reading, and one more
`DeleteExpired()` at any clock reading keeps the entry. -/
theorem NoExpiration_persists (c : Cache α) (hc : c.WF) (k : String) (v : Value α) (now : Int)
    (ops : List (Op α × Int)) (hw : ∀ o ∈ ops, o.1.writes k = false) :
    (mapLookup k ((c.Set k v NoExpiration now).run ops).items
        = some { Object := v, Expiration := 0 } ∧
      (∀ t, (((c.Set k v NoExpiration now).run ops).Get k t).2 = true) ∧
      (∀ t, mapLookup k (((c.Set k v NoExpiration now).run ops).DeleteExpired t).items
        = some { Object := v, Expiration := 0 })) ∧
    ((c.Add k v NoExpiration now).2 = none →
      mapLookup k ((c.Add k v NoExpiration now).1.run ops).items
        = some { Object := v, Expiration := 0 } ∧
      (∀ t, (((c.Add k v NoExpiration now).1.run ops).Get k t).2 = true) ∧
      (∀ t, mapLookup k (((c.Add k v NoExpiration now).1.run ops).DeleteExpired t).items
        = some { Object := v, Expiration := 0 })) := by
  have hsw : ∀ t, sweepTest t ({ Object := v, Expiration := 0 } : Item α) = false := by
    intro t; simp [sweepTest]
  have hl : mapLookup k (c.Set k v NoExpiration now).items
      = some { Object := v, Expiration := 0 } := by
    rw [mapLookup_Set_self]
    rfl
  have hwf := Set_WF c hc k v NoExpiration now
  have hrun := run_lookup_some _ hwf k ops hw hl (fun o _ => hsw o.2)
  have key : mapLookup k ((c.Set k v NoExpiration now).run ops).items
        = some { Object := v, Expiration := 0 } ∧
      (∀ t, (((c.Set k v NoExpiration now).run ops).Get k t).2 = true) ∧
      (∀ t, mapLookup k (((c.Set k v NoExpiration now).run ops).DeleteExpired t).items
        = some { Object := v, Expiration := 0 }) := by
    refine ⟨hrun, ?_, ?_⟩
    · intro t
      rw [Get_found_of_lookup _ k t hrun]
      simp [Item.Expired]
    · intro t
      rw [mapLookup_DeleteExpired _ (run_WF _ hwf ops) t k, hrun]
      simp [hsw t]
  refine ⟨key, ?_⟩
  intro hadd
  rw [Add_eq_of_no_error c k v NoExpiration now hadd]
  exact key

/-- C9 on the store of `main.go`, whose default ttl is half an hour: `"k2"` set with
`NoExpiration` survives calls on other keys and a sweep at the largest clock reading. -/
theorem NoExpiration_persists_witness :
    mapLookup "k2" ((mainCache1.Set "k2" (Value.val "x") NoExpiration clock0).run busyCalls).items
      = some { Object := Value.val "x", Expiration := 0 } :=
  (NoExpiration_persists mainCache1 (by decide) "k2" (Value.val "x") clock0 busyCalls
    (by decide)).1.1

/-- A sweep after the stamp removes the entry, whenever the stamp `t0 + d` is positive. -/
theorem reclaim_of_positive_stamp (c : Cache α) (hc : c.WF) (k : String) (v : Value α)
    (d t0 t1 : Int) (ops ops' : List (Op α × Int))
    (hd : 0 < d) (hpos : 0 < t0 + d) (ht1 : t1 > t0 + d) (hmax : t1 ≤ maxInt64)
    (hw : ∀ o ∈ ops, o.1.writes k = false) (hw' : ∀ o ∈ ops', o.1.writes k = false) :
    mapCount k (((c.Set k v d t0).run ops).DeleteExpired t1).items = 0 ∧
    mapLookup k (((c.Set k v d t0).run ops).DeleteExpired t1).items = none ∧
    mapCount k ((((c.Set k v d t0).run ops).DeleteExpired t1).run ops').items = 0 := by
  have hlo : minInt64 ≤ t0 + d := by
    unfold minInt64
    omega
  have hfit : t0 + d ≤ maxInt64 := by omega
  have hl : mapLookup k (c.Set k v d t0).items
      = some { Object := v, Expiration := t0 + d } := by
    rw [mapLookup_Set_self, expirationStamp_of_fits c d t0 hd hlo hfit]
  have hwf := run_WF _ (Set_WF c hc k v d t0) ops
  have hnone : mapLookup k (((c.Set k v d t0).run ops).DeleteExpired t1).items = none := by
    rw [mapLookup_DeleteExpired _ hwf t1 k]
    rcases run_lookup_some_or_none _ (Set_WF c hc k v d t0) k ops hw hl with h | h
    · rw [h]
      have : sweepTest t1 ({ Object := v, Expiration := t0 + d } : Item α) = true := by
        rw [sweepTest_iff]
        exact ⟨hpos, ht1⟩
      simp [this]
    · rw [h]
  refine ⟨(mapCount_eq_zero_iff k _).2 hnone, hnone, (mapCount_eq_zero_iff k _).2 ?_⟩
  exact run_lookup_none _ (DeleteExpired_WF _ hwf t1) k ops' hw' hnone

/-- C10: on a store whose keys are distinct, let `d > 0`, let `Set(k, v, d)` be performed at the
clock reading `t0 >= 0` and be followed by calls none of which is a `Set`, `Add` or `Delete` on
`k`, and let `DeleteExpired()` then run at an `int64` clock reading `t1 > t0 + d`. Afterwards
no entry is stored under `k` (the number of entries under `k` is 0, and the key is absent, not
merely reported as not found), and this stays so through further calls that do not write `k`. -/
theorem sweep_reclaims (c : Cache α) (hc : c.WF) (k : String) (v : Value α) (d t0 t1 : Int)
    (ops ops' : List (Op α × Int))
    (hd : 0 < d) (ht0 : 0 ≤ t0) (ht1 : t1 > t0 + d) (hmax : t1 ≤ maxInt64)
    (hw : ∀ o ∈ ops, o.1.writes k = false) (hw' : ∀ o ∈ ops', o.1.writes k = false) :
    mapCount k (((c.Set k v d t0).run ops).DeleteExpired t1).items = 0 ∧
    mapLookup k (((c.Set k v d t0).run ops).DeleteExpired t1).items = none ∧
    mapCount k ((((c.Set k v d t0).run ops).DeleteExpired t1).run ops').items = 0 :=
  reclaim_of_positive_stamp c hc k v d t0 t1 ops ops' hd (by omega) ht1 hmax hw hw'

/-- C10 at the calls of `main.go`: `Set("k1", "dummy dummy", 1s)` at `clock0`, and a sweep three
seconds later leaves no entry under `"k1"`. -/
theorem sweep_reclaims_witness :
    mapCount "k1" (((mainCache1.Set "k1" (Value.val "dummy dummy") 1000000000 clock0).run
      []).DeleteExpired (clock0 + 3000000000)).items = 0 :=
  (sweep_reclaims mainCache1 (by decide) "k1" (Value.val "dummy dummy") 1000000000 clock0
    (clock0 + 3000000000) [] [] (by decide) (by decide) (by decide) (by decide)
    (by decide) (by decide)).1

/-! ## The sweeper and the frame of the calls -/

theorem gcLoopStep_tick_running (s : Sweeper α) (now : Int) (h : s.state = GcState.Running) :
    gcLoopStep s (GcEvent.tick now) =
      { s with c := s.c.DeleteExpired now, sweeps := s.sweeps + 1 } := by
  simp [gcLoopStep, h]

theorem gcLoopStep_stop_made (s : Sweeper α) (h : s.state = GcState.Running)
    (hch : s.stopGc = Chan.made) :
    gcLoopStep s GcEvent.stop = { s with state := GcState.Stopped } := by
  simp [gcLoopStep, h, hch]

theorem gcLoop_cons (s : Sweeper α) (e : GcEvent α) (rest : List (GcEvent α)) :
    gcLoop s (e :: rest) = gcLoop (gcLoopStep s e) rest :=
  rfl

/-- Once `gcLoop` has returned it calls `DeleteExpired` no more and does not resume. -/
theorem gcLoop_stopped (s : Sweeper α) (h : s.state = GcState.Stopped)
    (events : List (GcEvent α)) :
    (gcLoop s events).state = GcState.Stopped ∧ (gcLoop s events).sweeps = s.sweeps := by
  induction events generalizing s with
  | nil => exact ⟨h, rfl⟩
  | cons e rest ih =>
    rw [gcLoop_cons]
    cases e with
    | tick now =>
      have hs : gcLoopStep s (GcEvent.tick now) = s := by simp [gcLoopStep, h]
      rw [hs]
      exact ih s h
    | stop =>
      have hs : gcLoopStep s GcEvent.stop = s := by simp [gcLoopStep, h]
      rw [hs]
      exact ih s h
    | call op now =>
      exact ih (gcLoopStep s (GcEvent.call op now)) h

/-- With a `nil` channel `gcLoop` never leaves its loop, and it sweeps at every tick. -/
theorem gcLoop_nil_channel (s : Sweeper α) (h : s.state = GcState.Running)
    (hch : s.stopGc = Chan.nil) (events : List (GcEvent α)) :
    (gcLoop s events).state = GcState.Running ∧
    (gcLoop s events).stopGc = Chan.nil ∧
    (gcLoop s events).sweeps = s.sweeps + countTicks events := by
  induction events generalizing s with
  | nil => exact ⟨h, hch, rfl⟩
  | cons e rest ih =>
    rw [gcLoop_cons]
    cases e with
    | tick now =>
      have hstep := gcLoopStep_tick_running s now h
      have hst : (gcLoopStep s (GcEvent.tick now)).state = GcState.Running := by
        rw [hstep]; exact h
      have hc : (gcLoopStep s (GcEvent.tick now)).stopGc = Chan.nil := by
        rw [hstep]; exact hch
      have hsw : (gcLoopStep s (GcEvent.tick now)).sweeps = s.sweeps + 1 := by
        rw [hstep]
      have := ih (gcLoopStep s (GcEvent.tick now)) hst hc
      refine ⟨this.1, this.2.1, ?_⟩
      rw [this.2.2, hsw]
      show s.sweeps + 1 + countTicks rest = s.sweeps + (countTicks rest + 1)
      omega
    | stop =>
      have hs : gcLoopStep s GcEvent.stop = s := by simp [gcLoopStep, h, hch]
      rw [hs]
      exact ih s h hch
    | call op now =>
      exact ih (gcLoopStep s (GcEvent.call op now)) h hch

theorem step_defaultExpiration (c : Cache α) (op : Op α) (now : Int) :
    (c.step op now).defaultExpiration = c.defaultExpiration := by
  cases op with
  | Set k v d => rfl
  | Add k v d =>
    show (c.Add k v d now).1.defaultExpiration = _
    unfold Cache.Add
    cases mapLookup k c.items <;> rfl
  | Get k => rfl
  | Delete k => rfl
  | DeleteExpired => exact deleteExpiredLoop_defaultExpiration now c.items c

theorem step_gcInterval (c : Cache α) (op : Op α) (now : Int) :
    (c.step op now).gcInterval = c.gcInterval := by
  cases op with
  | Set k v d => rfl
  | Add k v d =>
    show (c.Add k v d now).1.gcInterval = _
    unfold Cache.Add
    cases mapLookup k c.items <;> rfl
  | Get k => rfl
  | Delete k => rfl
  | DeleteExpired => exact deleteExpiredLoop_gcInterval now c.items c

theorem run_defaultExpiration (c : Cache α) (ops : List (Op α × Int)) :
    (c.run ops).defaultExpiration = c.defaultExpiration := by
  induction ops generalizing c with
  | nil => rfl
  | cons o rest ih => exact (ih (c.step o.1 o.2)).trans (step_defaultExpiration c o.1 o.2)

/-! ## Stamps of the reachable states -/

theorem expirationStamp_nonneg (d now : Int) (hnow : 0 < now)
    (hfit : now + d ≤ maxInt64) : 0 ≤ expirationStamp d now := by
  unfold expirationStamp
  by_cases hd : d > 0
  · rw [if_pos hd, wrapInt64_of_inInt64]
    · omega
    · constructor
      · unfold minInt64
        omega
      · exact hfit
  · rw [if_neg hd]

theorem expirationStamp_of_pos (c : Cache α) (d now : Int) (hd : 0 < d) :
    expirationStamp (effectiveTTL c d) now = wrapInt64 (now + d) := by
  have hne : ¬ d = DefaultExpiration := by
    unfold DefaultExpiration
    omega
  unfold effectiveTTL expirationStamp
  rw [if_neg hne, if_pos hd]

theorem set_stamps_nonneg (c : Cache α) (k : String) (v : Value α) (d now : Int)
    (hinv : ∀ kv ∈ c.items, 0 ≤ kv.2.Expiration) (hnow : 0 < now)
    (hfit : now + (if d = 0 then c.defaultExpiration else d) ≤ maxInt64) :
    ∀ kv ∈ (c.set k v d now).items, 0 ≤ kv.2.Expiration := by
  intro kv hkv
  rcases List.mem_cons.1 hkv with h | h
  · rw [h]
    exact expirationStamp_nonneg _ now hnow hfit
  · exact hinv kv (List.mem_of_mem_filter h)

theorem step_stamps_nonneg (c : Cache α) (op : Op α) (now : Int)
    (hinv : ∀ kv ∈ c.items, 0 ≤ kv.2.Expiration)
    (hr : op.inRange c.defaultExpiration now = true) :
    ∀ kv ∈ (c.step op now).items, 0 ≤ kv.2.Expiration := by
  cases op with
  | Set k v d =>
    simp only [Op.inRange, Bool.and_eq_true, decide_eq_true_eq] at hr
    exact set_stamps_nonneg c k v d now hinv hr.1 hr.2
  | Add k v d =>
    simp only [Op.inRange, Bool.and_eq_true, decide_eq_true_eq] at hr
    show ∀ kv ∈ (c.Add k v d now).1.items, 0 ≤ kv.2.Expiration
    unfold Cache.Add
    cases mapLookup k c.items with
    | none => exact set_stamps_nonneg c k v d now hinv hr.1 hr.2
    | some item => exact hinv
  | Get k => exact hinv
  | Delete k =>
    intro kv hkv
    exact hinv kv (List.mem_of_mem_filter hkv)
  | DeleteExpired =>
    intro kv hkv
    have hkv' : kv ∈ (deleteExpiredLoop now c.items c).items := hkv
    rw [deleteExpiredLoop_items] at hkv'
    exact hinv kv (List.mem_of_mem_filter hkv')

theorem run_stamps_nonneg (c : Cache α) (ops : List (Op α × Int))
    (hinv : ∀ kv ∈ c.items, 0 ≤ kv.2.Expiration)
    (hr : ∀ o ∈ ops, o.1.inRange c.defaultExpiration o.2 = true) :
    ∀ kv ∈ (c.run ops).items, 0 ≤ kv.2.Expiration := by
  induction ops generalizing c with
  | nil => exact hinv
  | cons o rest ih =>
    apply ih (c.step o.1 o.2)
      (step_stamps_nonneg c o.1 o.2 hinv (hr o (List.mem_cons_self _ _)))
    intro o' ho'
    rw [step_defaultExpiration]
    exact hr o' (List.mem_cons_of_mem _ ho')

theorem Expired_iff_sweepTest (item : Item α) (now : Int) (h : 0 ≤ item.Expiration) :
    item.Expired now = true ↔ sweepTest now item = true := by
  rw [Expired_iff, sweepTest_iff]
  constructor
  · rintro ⟨h0, hn⟩
    exact ⟨by omega, hn⟩
  · rintro ⟨h0, hn⟩
    exact ⟨by omega, hn⟩

/-! ## Claims about the sweeper, `NewCache` and the interplay of the calls -/

/-- C11 on the code: the store that `NewCache` returns has a `nil` channel `stopGc` (the struct
literal does not set it, and the package has neither a `Stop` method nor any send on it), so
whatever ticks, attempts to send a stop signal and calls occur, its `gcLoop` is still in its
loop, has never reached `Stopped`, and has called `DeleteExpired` once for every tick. -/
theorem gcLoop_NewCache_never_stops (de gc : Int) (events : List (GcEvent α)) :
    (NewCacheGc de gc : Sweeper α).stopGc = Chan.nil ∧
    (gcLoop (NewCacheGc de gc) events).state = GcState.Running ∧
    (gcLoop (NewCacheGc de gc) events).state ≠ GcState.Stopped ∧
    (gcLoop (NewCacheGc de gc) events).sweeps = countTicks events := by
  have h := gcLoop_nil_channel (NewCacheGc de gc : Sweeper α) rfl rfl events
  refine ⟨rfl, h.1, ?_, ?_⟩
  · rw [h.1]
    decide
  · rw [h.2.2]
    show 0 + countTicks events = countTicks events
    omega

/-- C13: when `k` is present and its entry is expired at `now`, `Get(k)` returns
`found = false` together with the boxed `Item` record of the map, which is neither `nil` nor
the value the caller stored; `Get` leaves the state as it is, so the entry is still stored
under `k` afterwards. -/
theorem Get_expired_returns_record (c : Cache α) (k : String) (now : Int) (item : Item α)
    (h : mapLookup k c.items = some item) (h0 : item.Expiration ≠ 0)
    (hn : now > item.Expiration) :
    c.Get k now = (Value.item item.Object item.Expiration, false) ∧
    (c.Get k now).1 ≠ Value.nil ∧
    (c.Get k now).1 ≠ item.Object ∧
    c.step (Op.Get k) now = c ∧
    mapLookup k (c.step (Op.Get k) now).items = some item := by
  have he : item.Expired now = true := (Expired_iff now item).2 ⟨h0, hn⟩
  have hg : c.Get k now = (Value.item item.Object item.Expiration, false) := by
    unfold Cache.Get
    rw [h]
    simp [he, Item.box]
  refine ⟨hg, ?_, ?_, rfl, h⟩
  · rw [hg]
    intro hc
    cases hc
  · rw [hg]
    exact Value_item_ne_self _ _

/-- C13 on a store with an unswept expired entry: `Get("old")` at `clock0` returns the record
and `false`. -/
theorem Get_expired_returns_record_witness :
    staleCache.Get "old" clock0 = (Value.item (Value.val "b") 5, false) :=
  (Get_expired_returns_record staleCache "old" clock0 { Object := Value.val "b", Expiration := 5 }
    (by decide) (by decide) (by decide)).1

/-- C14: for a positive sweep interval, `NewCache(defaultTTL, sweepInterval)` returns a store
with an empty map and with the two given durations, its sweeper is in its loop, and
`Get(k)` on it returns `(nil, false)` for every key, the empty string included, at every clock
reading. -/
theorem NewCache_spec (de gc : Int) (_hgc : 0 < gc) :
    (NewCache de gc : Cache α).items = [] ∧
    (NewCache de gc : Cache α).defaultExpiration = de ∧
    (NewCache de gc : Cache α).gcInterval = gc ∧
    (NewCacheGc de gc : Sweeper α).c = NewCache de gc ∧
    (NewCacheGc de gc : Sweeper α).state = GcState.Running ∧
    (∀ k now, (NewCache de gc : Cache α).Get k now = (Value.nil, false)) ∧
    (∀ now, (NewCache de gc : Cache α).Get "" now = (Value.nil, false)) :=
  ⟨rfl, rfl, rfl, rfl, rfl, fun _ _ => rfl, fun _ => rfl⟩

/-- C14 at the arguments of `main.go`. -/
theorem NewCache_spec_witness :
    (NewCache 1800000000000 1000000000 : Cache String).Get "" clock0 = (Value.nil, false) :=
  (NewCache_spec 1800000000000 1000000000 (by decide)).2.2.2.2.2.2 clock0

/-- C15: when `k` is present and its entry is expired at `now`, `Get(k)` reports
`found = false`, and `Add(k, v, ttl)` at `now` nevertheless returns the already-exists error
and leaves the state, with the expired entry, as it is. -/
theorem Add_on_expired_entry (c : Cache α) (k : String) (v : Value α) (ttl now : Int)
    (item : Item α) (h : mapLookup k c.items = some item) (h0 : item.Expiration ≠ 0)
    (hn : now > item.Expiration) :
    (c.Get k now).2 = false ∧
    c.Add k v ttl now = (c, some (AlreadyExists k)) ∧
    mapLookup k (c.Add k v ttl now).1.items = some item := by
  have he : item.Expired now = true := (Expired_iff now item).2 ⟨h0, hn⟩
  have ha : c.Add k v ttl now = (c, some (AlreadyExists k)) := by
    unfold Cache.Add
    rw [h]
  refine ⟨?_, ha, ?_⟩
  · rw [Get_found_of_lookup c k now h, he]
    rfl
  · rw [ha]
    exact h

/-- C15, a state in which `Get` reports not found and `Add` fails: the store with the unswept
entry `"old"`. -/
theorem Add_on_expired_entry_witness :
    (staleCache.Get "old" clock0).2 = false ∧
    staleCache.Add "old" (Value.val "new") 0 clock0
      = (staleCache, some "Item old already exists.") :=
  ⟨(Add_on_expired_entry staleCache "old" (Value.val "new") 0 clock0
      { Object := Value.val "b", Expiration := 5 } (by decide) (by decide) (by decide)).1,
   (Add_on_expired_entry staleCache "old" (Value.val "new") 0 clock0
      { Object := Value.val "b", Expiration := 5 } (by decide) (by decide) (by decide)).2.1⟩

/-- C16: on a store whose keys are distinct and for clock readings `t <= t'`, the `found` flag
of `Get(k)` at `t'` is the same with and without a `DeleteExpired()` at `t` before it; an
entry that the sweep at `t` removes is reported as not found by `Get` at every clock reading
from `t` on. -/
theorem sweep_invisible_to_Get (c : Cache α) (hc : c.WF) (k : String) (t t' : Int)
    (htt : t ≤ t') :
    ((c.DeleteExpired t).Get k t').2 = (c.Get k t').2 ∧
    (mapLookup k c.items ≠ none → mapLookup k (c.DeleteExpired t).items = none →
      (c.Get k t').2 = false) := by
  have hl := mapLookup_DeleteExpired c hc t k
  cases hk : mapLookup k c.items with
  | none =>
    rw [hk] at hl
    refine ⟨?_, fun h => absurd rfl h⟩
    rw [Get_of_lookup_none _ k t' hl, Get_of_lookup_none c k t' hk]
  | some item =>
    rw [hk] at hl
    by_cases hs : sweepTest t item = true
    · have hexp : item.Expired t' = true := by
        rw [Expired_iff]
        have := (sweepTest_iff t item).1 hs
        constructor
        · omega
        · omega
      have hfalse : (c.Get k t').2 = false := by
        rw [Get_found_of_lookup c k t' hk, hexp]
        rfl
      simp only [hs, if_true] at hl
      refine ⟨?_, fun _ _ => hfalse⟩
      rw [Get_of_lookup_none _ k t' hl, hfalse]
    · simp only [hs] at hl
      have hl' : mapLookup k (c.DeleteExpired t).items = some item := by simpa using hl
      refine ⟨?_, fun _ hn => ?_⟩
      · rw [Get_found_of_lookup _ k t' hl', Get_found_of_lookup c k t' hk]
      · rw [hl'] at hn
        cases hn

/-- C16 on a store with an expired entry: a sweep at `clock0` does not change what `Get("old")`
reports one second later. -/
theorem sweep_invisible_to_Get_witness :
    ((mixedCache.DeleteExpired clock0).Get "old" (clock0 + 1000000000)).2
      = (mixedCache.Get "old" (clock0 + 1000000000)).2 :=
  (sweep_invisible_to_Get mixedCache (by decide) "old" clock0 (clock0 + 1000000000)
    (by decide)).1

/-- C18: for keys `k != k'`, the entry stored under `k'` (present or not, with its value and
stamp) is the same before and after `Set(k, ...)`, `Add(k, ...)` and `Delete(k)`; and no call
among `Set`, `Add`, `Get`, `Delete` and `DeleteExpired` changes `defaultExpiration` or
`gcInterval`. -/
theorem frame_spec (c : Cache α) (k k' : String) (v : Value α) (d now : Int) (hk : k ≠ k') :
    mapLookup k' (c.Set k v d now).items = mapLookup k' c.items ∧
    mapLookup k' (c.Add k v d now).1.items = mapLookup k' c.items ∧
    mapLookup k' (c.Delete k).items = mapLookup k' c.items ∧
    (∀ (op : Op α) (t : Int),
      (c.step op t).defaultExpiration = c.defaultExpiration ∧
      (c.step op t).gcInterval = c.gcInterval) := by
  have hk' : k' ≠ k := fun e => hk e.symm
  exact ⟨mapLookup_mapAssign_ne hk' _ _, mapLookup_Add_ne c hk' v d now,
    mapLookup_mapDelete_ne hk' _, fun op t => ⟨step_defaultExpiration c op t, step_gcInterval c op t⟩⟩

/-- C18 at the calls of `main.go`: `Set("k2", ...)` leaves the entry of `"k1"` as it was. -/
theorem frame_spec_witness :
    mapLookup "k1" (mainCache1.Set "k2" (Value.val "x") NoExpiration clock0).items
      = mapLookup "k1" mainCache1.items :=
  (frame_spec mainCache1 "k2" "k1" (Value.val "x") NoExpiration clock0 (by decide)).1

/-- C17, as stated, fails: on the store `NewCache(8 * 10^18 ns, 1s)` the call `Set("k1", v, 0)`
at the positive clock reading `clock0` has `now + ttl = clock0` within the `int64` range, but
`set` applies the default ttl, the stamp wraps, and the stored `Expiration` is negative; there
`Item.Expired` holds at `clock0` and the removal test of `DeleteExpired` does not. -/
theorem reachable_stamps_counterexample :
    0 < clock0 ∧ inInt64 (clock0 + 0) ∧
    mapLookup "k1" (longCache.run [(Op.Set "k1" (Value.val "v") 0, clock0)]).items
      = some { Object := Value.val "v", Expiration := -8746744073709551616 } ∧
    ¬ (0 ≤ (-8746744073709551616 : Int)) ∧
    ({ Object := Value.val "v", Expiration := -8746744073709551616 } : Item String).Expired clock0
      = true ∧
    sweepTest clock0 ({ Object := Value.val "v", Expiration := -8746744073709551616 } : Item String)
      = false := by
  decide

/-- C17, amended: in every state reached from `NewCache` by calls made at positive clock readings
such that, for each `Set` and `Add`, the clock reading plus the duration that `set` applies
(`defaultExpiration` for the argument 0, the argument otherwise) is at most `2^63 - 1`, every
stored entry has `Expiration >= 0`. On these states `Item.Expired` and the removal test of
`DeleteExpired` agree for every stored entry and clock reading, and `DeleteExpired` at `now`
removes exactly the keys whose entry `Get` at `now` reports as expired. -/
theorem reachable_stamps_nonneg (de gc : Int) (ops : List (Op α × Int))
    (hr : ∀ o ∈ ops, o.1.inRange de o.2 = true) :
    (∀ kv ∈ ((NewCache de gc : Cache α).run ops).items, 0 ≤ kv.2.Expiration) ∧
    (∀ kv ∈ ((NewCache de gc : Cache α).run ops).items, ∀ now : Int,
      ((kv.2.Expiration ≠ 0 ∧ now > kv.2.Expiration) ↔
        (kv.2.Expiration > 0 ∧ now > kv.2.Expiration)) ∧
      (kv.2.Expired now = true ↔ sweepTest now kv.2 = true)) ∧
    (∀ (k : String) (now : Int),
      (mapLookup k ((NewCache de gc : Cache α).run ops).items ≠ none ∧
        mapLookup k (((NewCache de gc : Cache α).run ops).DeleteExpired now).items = none) ↔
      (∃ item, mapLookup k ((NewCache de gc : Cache α).run ops).items = some item ∧
        item.Expired now = true ∧
        ((NewCache de gc : Cache α).run ops).Get k now = (item.box, false))) := by
  have hinv : ∀ kv ∈ ((NewCache de gc : Cache α).run ops).items, 0 ≤ kv.2.Expiration :=
    run_stamps_nonneg (NewCache de gc) ops (fun kv hkv => by cases hkv) hr
  have hwf : ((NewCache de gc : Cache α).run ops).WF := run_WF _ (NewCache_WF de gc) ops
  refine ⟨hinv, ?_, ?_⟩
  · intro kv hkv now
    have h0 := hinv kv hkv
    refine ⟨?_, Expired_iff_sweepTest kv.2 now h0⟩
    constructor
    · rintro ⟨h1, h2⟩
      exact ⟨by omega, h2⟩
    · rintro ⟨h1, h2⟩
      exact ⟨by omega, h2⟩
  · intro k now
    have hl := mapLookup_DeleteExpired _ hwf now k
    cases hk : mapLookup k ((NewCache de gc : Cache α).run ops).items with
    | none =>
      constructor
      · rintro ⟨h, _⟩
        exact absurd rfl h
      · rintro ⟨item, h, _⟩
        cases h
    | some item =>
      rw [hk] at hl
      have h0 := hinv (k, item) (mem_of_mapLookup_eq_some hk)
      have hagree := Expired_iff_sweepTest item now h0
      constructor
      · rintro ⟨_, hn⟩
        by_cases hs : sweepTest now item = true
        · have he := hagree.2 hs
          refine ⟨item, rfl, he, ?_⟩
          unfold Cache.Get
          rw [hk]
          simp [he]
        · rw [hn] at hl
          simp [hs] at hl
      · rintro ⟨item', h, he, _⟩
        simp only [Option.some.injEq] at h
        subst h
        refine ⟨by simp, ?_⟩
        rw [hl]
        simp [hagree.1 he]

/-- C17, amended, at the calls of `main.go`: all stamps are non-negative after them. -/
theorem reachable_stamps_nonneg_witness :
    (((NewCache 1800000000000 1000000000 : Cache String).run mainCalls).items.all
      (fun kv => decide (0 ≤ kv.2.Expiration))) = true :=
  List.all_eq_true.2 (fun kv hkv => decide_eq_true
    ((reachable_stamps_nonneg 1800000000000 1000000000 mainCalls (by decide)).1 kv hkv))

/-- C19: with the stamp computed in wrapping 64-bit arithmetic there are a positive clock
reading and a positive ttl, both `int64`, for which `Set` stores a negative `Expiration`. For
every such entry, on a store whose keys are distinct and as long as no `Set`, `Add` or `Delete`
touches `k`, `Get(k)` returns `found = false` at every clock reading from `now` on, and
`DeleteExpired()` at any clock reading leaves the entry in the map. -/
theorem negative_stamp_never_swept :
    (∃ now d : Int, 0 < now ∧ inInt64 now ∧ 0 < d ∧ inInt64 d ∧
      ∀ (c : Cache α) (k : String) (v : Value α),
        ∃ e : Int, e < 0 ∧
          mapLookup k (c.Set k v d now).items = some { Object := v, Expiration := e }) ∧
    (∀ (c : Cache α) (k : String) (v : Value α) (d now : Int) (ops : List (Op α × Int)),
      c.WF → 0 < now → 0 < d → wrapInt64 (now + d) < 0 →
      (∀ o ∈ ops, o.1.writes k = false) →
      mapLookup k (c.Set k v d now).items
        = some { Object := v, Expiration := wrapInt64 (now + d) } ∧
      (∀ t, t ≥ now → (((c.Set k v d now).run ops).Get k t).2 = false) ∧
      (∀ t, mapLookup k (((c.Set k v d now).run ops).DeleteExpired t).items
        = some { Object := v, Expiration := wrapInt64 (now + d) })) := by
  constructor
  · refine ⟨clock0, 8000000000000000000, by decide, by decide, by decide, by decide, ?_⟩
    intro c k v
    refine ⟨-8746744073709551616, by decide, ?_⟩
    rw [mapLookup_Set_self, expirationStamp_of_pos c _ _ (by decide)]
    rfl
  · intro c k v d now ops hc hnow hd hneg hw
    have hl : mapLookup k (c.Set k v d now).items
        = some { Object := v, Expiration := wrapInt64 (now + d) } := by
      rw [mapLookup_Set_self, expirationStamp_of_pos c d now hd]
    have hsw : ∀ t, sweepTest t ({ Object := v, Expiration := wrapInt64 (now + d) } : Item α)
        = false := by
      intro t
      simp only [sweepTest, Bool.and_eq_false_iff, decide_eq_false_iff_not]
      left
      omega
    have hwf := Set_WF c hc k v d now
    have hrun := run_lookup_some _ hwf k ops hw hl (fun o _ => hsw o.2)
    refine ⟨hl, ?_, ?_⟩
    · intro t ht
      rw [Get_found_of_lookup _ k t hrun]
      have hexp : ({ Object := v, Expiration := wrapInt64 (now + d) } : Item α).Expired t
          = true := by
        rw [Expired_iff]
        constructor
        · show wrapInt64 (now + d) ≠ 0
          omega
        · show t > wrapInt64 (now + d)
          omega
      rw [hexp]
      rfl
    · intro t
      rw [mapLookup_DeleteExpired _ (run_WF _ hwf ops) t k, hrun]
      simp [hsw t]

/-- C19 at `clock0` with a ttl of 8 * 10^18 ns: the entry is reported as not found at once and
survives a sweep at the largest clock reading. -/
theorem negative_stamp_never_swept_witness :
    ((mainCache.Set "k1" (Value.val "v") 8000000000000000000 clock0).Get "k1" clock0).2 = false ∧
    mapLookup "k1"
        ((mainCache.Set "k1" (Value.val "v") 8000000000000000000 clock0).DeleteExpired
          maxInt64).items
      = some { Object := Value.val "v", Expiration := wrapInt64 (clock0 + 8000000000000000000) } :=
  ⟨((negative_stamp_never_swept.2 mainCache "k1" (Value.val "v") 8000000000000000000 clock0 []
      (by decide) (by decide) (by decide) (by decide) (by decide)).2.1 clock0 (by decide)),
   ((negative_stamp_never_swept.2 mainCache "k1" (Value.val "v") 8000000000000000000 clock0 []
      (by decide) (by decide) (by decide) (by decide) (by decide)).2.2 maxInt64)⟩

end cache
